import Mathlib

/-!
Shallow embedding of the WasmEdge reference-table instance
(`include/runtime/instance/table.h`, class `TableInstance`) and proofs of
specification properties about it.

Machine integers are modelled as `Nat` with explicit modular reduction at
the points where the C++ arithmetic can wrap:
* `checkAccessBound` computes `Offset + Length` after casting both 32-bit
  operands to `uint64_t`, so for 32-bit inputs the sum never wraps and is
  modelled as the plain `Nat` sum;
* `growTable` computes `MaxSizeCaped - Refs.size()` in unsigned 64-bit
  arithmetic (the `uint32_t` is promoted to `size_t`), which wraps modulo
  `2 ^ 64` when `Refs.size()` exceeds the cap — modelled explicitly;
* the source-range check of `setRefs` computes `Start + Length` in
  unsigned 32-bit arithmetic, which wraps modulo `2 ^ 32` — modelled
  explicitly.

Fallible operations (`getRefs`, `setRefs`, `fillRefs`, `getRefAddr`,
`setRefAddr`) return `Except`; every failure in the source is
`ErrCode::TableOutOfBounds` together with a logged
`ErrInfo::InfoBoundary(offset, length, boundary)` triple, so the error
type carries that triple.
-/

namespace WasmEdgeTable

/-- The modulus of unsigned 32-bit arithmetic. -/
def U32MOD : Nat := 2 ^ 32

/-- `std::numeric_limits<uint32_t>::max()`. -/
def U32MAX : Nat := 2 ^ 32 - 1

/-- The modulus of unsigned 64-bit (`size_t`) arithmetic. -/
def U64MOD : Nat := 2 ^ 64

/-- Reference value (`RefVariant`): an opaque handle that is either the
null/unknown reference, a function reference, or an external reference.
The table never inspects the payload. -/
inductive RefVariant where
  | unknown : RefVariant
  | funcRef (addr : Nat) : RefVariant
  | externRef (addr : Nat) : RefVariant
  deriving DecidableEq, Repr

/-- `UnknownRef()`: the null/unknown reference value. -/
def UnknownRef : RefVariant := RefVariant.unknown

/-- Reference type (`RefType`): the declared element kind of a table. -/
inductive RefType where
  | funcRef : RefType
  | externRef : RefType
  deriving DecidableEq, Repr

/-- `AST::Limit`: size limits supplied at construction.  `min` and `max`
are `uint32_t` in the source; theorems add `< 2 ^ 32` bounds where the
width matters. -/
structure Limit where
  hasMax : Bool
  min : Nat
  max : Nat
  deriving DecidableEq, Repr

/-- The `(offset, length, boundary)` triple logged via
`ErrInfo::InfoBoundary` when an operation fails with
`ErrCode::TableOutOfBounds`. -/
structure InfoBoundary where
  offset : Nat
  length : Nat
  boundary : Nat
  deriving DecidableEq, Repr

/-- The table instance state: element type, limit data and the reference
storage (`std::vector<RefVariant> Refs`). -/
structure TableInstance where
  refTy : RefType
  HasMaxSize : Bool
  MaxSize : Nat
  Refs : List RefVariant
  deriving DecidableEq, Repr

/-- The constructor `TableInstance(const RefType &Ref, const AST::Limit
&Lim)`: stores the type and limit fields and initializes `Refs` with
`Lim.getMin()` copies of `UnknownRef()`.  No validation is performed. -/
def mkTable (ref : RefType) (lim : Limit) : TableInstance :=
  { refTy := ref
    HasMaxSize := lim.hasMax
    MaxSize := lim.max
    Refs := List.replicate lim.min UnknownRef }

namespace TableInstance

/-- `getSize()`: the current number of slots. -/
def getSize (t : TableInstance) : Nat := t.Refs.length

/-- `getHasMax()`. -/
def getHasMax (t : TableInstance) : Bool := t.HasMaxSize

/-- `getMin()`: defined in the source as the current `Refs.size()`. -/
def getMin (t : TableInstance) : Nat := t.Refs.length

/-- `getMax()`. -/
def getMax (t : TableInstance) : Nat := t.MaxSize

/-- `checkAccessBound(Offset, Length)`: casts both 32-bit operands to
`uint64_t` and tests `Offset + Length <= Refs.size()`.  For inputs below
`2 ^ 32` the 64-bit sum cannot wrap, so the sum is the plain `Nat` sum. -/
def checkAccessBound (t : TableInstance) (off len : Nat) : Bool :=
  decide (off + len ≤ t.Refs.length)

/-- `getBoundIdx()`: `max(size, 1) - 1`, the last valid index, or 0 for
an empty table. -/
def getBoundIdx (t : TableInstance) : Nat :=
  max t.Refs.length 1 - 1

/-- The local `MaxSizeCaped` of `growTable`: `UINT32_MAX`, lowered to
`std::min(MaxSize, UINT32_MAX)` when `HasMaxSize`. -/
def maxSizeCaped (t : TableInstance) : Nat :=
  if t.HasMaxSize then min t.MaxSize U32MAX else U32MAX

/-- `growTable(Count, Val)`: fails returning `false` when
`Count > MaxSizeCaped - Refs.size()` — a subtraction performed in
unsigned 64-bit arithmetic (the `uint32_t` cap is promoted to `size_t`),
hence the explicit `% U64MOD` — and otherwise resizes (appending
default-constructed `UnknownRef` slots) and overwrites the `Count`
appended slots with `Val` via `std::fill_n`. -/
def growTable (t : TableInstance) (count : Nat) (val : RefVariant) :
    Bool × TableInstance :=
  if count > (t.maxSizeCaped + U64MOD - t.Refs.length) % U64MOD then
    (false, t)
  else
    let resized := t.Refs ++ List.replicate count UnknownRef
    let filled :=
      resized.take (resized.length - count) ++ List.replicate count val
    (true, { t with Refs := filled })

/-- The one-argument overload `growTable(Count)`: grows with
`UnknownRef()` as the fill value. -/
def growTableNoVal (t : TableInstance) (count : Nat) : Bool × TableInstance :=
  t.growTable count UnknownRef

/-- `getRefs(Offset, Length)`: bounds-checks `(Offset, Length)` and on
success returns the span `Refs[Offset : Offset + Length - 1]`. -/
def getRefs (t : TableInstance) (off len : Nat) :
    Except InfoBoundary (List RefVariant) :=
  if t.checkAccessBound off len then
    Except.ok ((t.Refs.drop off).take len)
  else
    Except.error ⟨off, len, t.getBoundIdx⟩

/-- `setRefs(Slice, Offset, Start, Length)`: checks the destination range
via `checkAccessBound`, then checks the source range with
`Start + Length > Slice.size()` where the sum is computed in unsigned
32-bit arithmetic (both operands are `uint32_t`), hence the explicit
`% U32MOD`.  On success `std::copy_n` writes `Length` slots starting at
`Offset`; reads past the end of `Slice` (possible only when the wrapped
source check passes spuriously) are undefined in C++ and modelled as
`UnknownRef`. -/
def setRefs (t : TableInstance) (slice : List RefVariant)
    (off start len : Nat) : Except InfoBoundary TableInstance :=
  if t.checkAccessBound off len then
    if (start + len) % U32MOD > slice.length then
      Except.error ⟨start, len, max slice.length 1 - 1⟩
    else
      let window := (List.range len).map
        (fun j => slice.getD (start + j) UnknownRef)
      Except.ok { t with Refs := t.Refs.take off ++ window ++ t.Refs.drop (off + len) }
  else
    Except.error ⟨off, len, t.getBoundIdx⟩

/-- `fillRefs(Val, Offset, Length)`: bounds-checks `(Offset, Length)` and
on success overwrites `Refs[Offset : Offset + Length - 1]` with `Val` via
`std::fill_n`. -/
def fillRefs (t : TableInstance) (val : RefVariant) (off len : Nat) :
    Except InfoBoundary TableInstance :=
  if t.checkAccessBound off len then
    let filled := t.Refs.take off ++ List.replicate len val ++ t.Refs.drop (off + len)
    Except.ok { t with Refs := filled }
  else
    Except.error ⟨off, len, t.getBoundIdx⟩

/-- `getRefAddr(Idx)`: fails when `Idx >= Refs.size()`, otherwise returns
`Refs[Idx]`. -/
def getRefAddr (t : TableInstance) (idx : Nat) :
    Except InfoBoundary RefVariant :=
  if idx ≥ t.Refs.length then
    Except.error ⟨idx, 1, t.getBoundIdx⟩
  else
    Except.ok (t.Refs.getD idx UnknownRef)

/-- `setRefAddr(Idx, Val)`: fails when `Idx >= Refs.size()`, otherwise
stores `Val` into `Refs[Idx]`. -/
def setRefAddr (t : TableInstance) (idx : Nat) (val : RefVariant) :
    Except InfoBoundary TableInstance :=
  if idx ≥ t.Refs.length then
    Except.error ⟨idx, 1, t.getBoundIdx⟩
  else
    Except.ok { t with Refs := t.Refs.set idx val }

end TableInstance

/-- One operation of the public mutating/reading interface, used to state
invariants over arbitrary operation sequences. -/
inductive TableOp where
  | grow (count : Nat) (val : RefVariant) : TableOp
  | setAddr (idx : Nat) (val : RefVariant) : TableOp
  | fill (val : RefVariant) (off len : Nat) : TableOp
  | write (slice : List RefVariant) (off start len : Nat) : TableOp
  | read (off len : Nat) : TableOp
  | readAddr (idx : Nat) : TableOp
  deriving Repr

/-- Apply one operation: a failing operation leaves the table unchanged
(in the source every check happens before any write), and reads never
mutate. -/
def applyOp (t : TableInstance) (op : TableOp) : TableInstance :=
  match op with
  | TableOp.grow c v => (t.growTable c v).2
  | TableOp.setAddr i v =>
      match t.setRefAddr i v with
      | Except.ok t2 => t2
      | Except.error _ => t
  | TableOp.fill v o l =>
      match t.fillRefs v o l with
      | Except.ok t2 => t2
      | Except.error _ => t
  | TableOp.write s o st l =>
      match t.setRefs s o st l with
      | Except.ok t2 => t2
      | Except.error _ => t
  | TableOp.read _ _ => t
  | TableOp.readAddr _ => t

/-- Run a sequence of operations from a starting state. -/
def runOps (t : TableInstance) (ops : List TableOp) : TableInstance :=
  ops.foldl applyOp t

/-! ### Helper lemmas -/

theorem U32MAX_lt_U64MOD : U32MAX < U64MOD := by norm_num [U32MAX, U64MOD]

theorem maxSizeCaped_le (t : TableInstance) : t.maxSizeCaped ≤ U32MAX := by
  unfold TableInstance.maxSizeCaped
  split
  · exact Nat.min_le_right _ _
  · exact Nat.le_refl _

theorem growTable_fst (t : TableInstance) (count : Nat) (val : RefVariant) :
    (t.growTable count val).1 =
      decide (count ≤ (t.maxSizeCaped + U64MOD - t.Refs.length) % U64MOD) := by
  unfold TableInstance.growTable
  split
  · next h => exact (decide_eq_false (by omega)).symm
  · next h => exact (decide_eq_true (by omega)).symm

theorem growTable_snd_success (t : TableInstance) (count : Nat) (val : RefVariant)
    (h : (t.growTable count val).1 = true) :
    (t.growTable count val).2 =
      { t with Refs := t.Refs ++ List.replicate count val } := by
  by_cases hc : count > (t.maxSizeCaped + U64MOD - t.Refs.length) % U64MOD
  · exfalso
    unfold TableInstance.growTable at h
    rw [if_pos hc] at h
    exact Bool.false_ne_true h
  · unfold TableInstance.growTable
    rw [if_neg hc]
    simp only [List.length_append, List.length_replicate]
    congr 1
    have hlen : t.Refs.length + count - count = t.Refs.length := by omega
    rw [hlen, List.take_left]

theorem growTable_snd_failure (t : TableInstance) (count : Nat) (val : RefVariant)
    (h : (t.growTable count val).1 = false) :
    (t.growTable count val).2 = t := by
  by_cases hc : count > (t.maxSizeCaped + U64MOD - t.Refs.length) % U64MOD
  · unfold TableInstance.growTable
    rw [if_pos hc]
  · exfalso
    unfold TableInstance.growTable at h
    rw [if_neg hc] at h
    simp at h

/-- When the current size is at most the cap, the 64-bit wrapped
subtraction agrees with the mathematical one. -/
theorem capSub_eq (t : TableInstance) (hsz : t.Refs.length ≤ t.maxSizeCaped) :
    (t.maxSizeCaped + U64MOD - t.Refs.length) % U64MOD =
      t.maxSizeCaped - t.Refs.length := by
  have hcap : t.maxSizeCaped ≤ U32MAX := maxSizeCaped_le t
  have hlt : U32MAX < U64MOD := U32MAX_lt_U64MOD
  have h1 : t.maxSizeCaped + U64MOD - t.Refs.length
      = (t.maxSizeCaped - t.Refs.length) + U64MOD := by omega
  rw [h1, Nat.add_mod_right, Nat.mod_eq_of_lt (by omega)]

/-! ### Claim theorems -/

/-- C10: construction is total and performs no limit validation: for every
element kind and every limits triple `(min, hasMax, max)` — including the
invalid case `hasMax` with `max < min` — the constructor produces a table
whose `size()` equals `min` with every one of the `min` slots equal to the
null reference. -/
theorem C10_construction_total (ref : RefType) (lim : Limit) :
    (mkTable ref lim).getSize = lim.min ∧
    (mkTable ref lim).Refs = List.replicate lim.min UnknownRef ∧
    (∀ i, i < lim.min → (mkTable ref lim).Refs.getD i UnknownRef = UnknownRef) := by
  refine ⟨by simp [mkTable, TableInstance.getSize], rfl, ?_⟩
  intro i hi
  simp [mkTable, List.getD_eq_getElem?_getD, List.getElem?_replicate_of_lt hi]

theorem C10_construction_total_witness :
    (mkTable RefType.funcRef ⟨true, 3, 1⟩).getSize = 3 ∧
    (mkTable RefType.funcRef ⟨true, 3, 1⟩).Refs.getD 2 UnknownRef = UnknownRef :=
  ⟨(C10_construction_total RefType.funcRef ⟨true, 3, 1⟩).1,
   (C10_construction_total RefType.funcRef ⟨true, 3, 1⟩).2.2 2 (by decide)⟩

/-- C6 counterexample: on an empty table, `fillRefs(v, 1, 0)` has
`offset > size()` and fails with OutOfBounds, contradicting the claim that
`fillRefs(v, offset, 0)` succeeds for every 32-bit offset. -/
theorem C6_counterexample :
    (mkTable RefType.funcRef ⟨false, 0, 0⟩).fillRefs UnknownRef 1 0 =
      Except.error ⟨1, 0, 0⟩ := by
  rfl

/-- C6 amended: `fillRefs(value, offset, 0)` succeeds and leaves the table
unchanged exactly when `offset ≤ size()` (in particular at
`offset = size()`); for `offset > size()` it fails with OutOfBounds
reporting the boundary index. -/
theorem C6_fill_zero_noop (t : TableInstance) (v : RefVariant) (off : Nat) :
    (off ≤ t.getSize → t.fillRefs v off 0 = Except.ok t) ∧
    (off > t.getSize →
      t.fillRefs v off 0 = Except.error ⟨off, 0, max t.getSize 1 - 1⟩) := by
  constructor
  · intro h
    have hc : t.checkAccessBound off 0 = true := by
      simp only [TableInstance.checkAccessBound, decide_eq_true_eq]
      simp only [TableInstance.getSize] at h
      omega
    have hlist : List.take off t.Refs ++ List.replicate 0 v ++
        List.drop (off + 0) t.Refs = t.Refs := by
      simp [List.take_append_drop]
    unfold TableInstance.fillRefs
    rw [if_pos hc, hlist]
  · intro h
    have hc : ¬ (t.checkAccessBound off 0 = true) := by
      simp only [TableInstance.checkAccessBound, decide_eq_true_eq]
      simp only [TableInstance.getSize] at h
      omega
    unfold TableInstance.fillRefs
    rw [if_neg hc]
    rfl

theorem C6_fill_zero_noop_witness :
    (mkTable RefType.funcRef ⟨false, 4, 0⟩).fillRefs UnknownRef 4 0 =
      Except.ok (mkTable RefType.funcRef ⟨false, 4, 0⟩) :=
  (C6_fill_zero_noop (mkTable RefType.funcRef ⟨false, 4, 0⟩) UnknownRef 4).1
    (by decide)

/-- A table constructed with the invalid limits `min = 2`, `hasMax`,
`max = 1`, which the constructor accepts without validation. -/
def tInvalid : TableInstance := mkTable RefType.funcRef ⟨true, 2, 1⟩

/-- C2 counterexample: on `tInvalid` (`hasMax`, ceiling `max = 1`,
`size() = 2`) the claimed equivalence fails at `count = 0`: the
mathematical comparison `0 ≤ ceiling - size()` is false over ℤ, yet
`grow(0)` succeeds, because the code's `MaxSizeCaped - Refs.size()`
subtraction wraps in unsigned 64-bit arithmetic. -/
theorem C2_counterexample :
    (tInvalid.growTable 0 UnknownRef).1 = true ∧
    tInvalid.getHasMax = true ∧
    ¬ ((0 : ℤ) ≤ (tInvalid.getMax : ℤ) - (tInvalid.getSize : ℤ)) := by
  refine ⟨?_, rfl, by decide⟩
  decide

/-- C2 amended: for every table whose current size does not exceed the
effective ceiling (`max` when `hasMax`, else `UINT32_MAX`) — an invariant
of every table constructed with valid limits — `grow(count)` succeeds iff
`count + size() ≤ ceiling` (the overflow-free form of
`count ≤ ceiling - size()`); and `grow(0)` succeeds on every table. -/
theorem C2_grow_success_iff (t : TableInstance) (count : Nat) (val : RefVariant) :
    (t.getMax < U32MOD →
      t.getSize ≤ (if t.getHasMax then t.getMax else U32MAX) →
      ((t.growTable count val).1 = true ↔
        count + t.getSize ≤ (if t.getHasMax then t.getMax else U32MAX))) ∧
    ((t.growTable 0 val).1 = true) := by
  constructor
  · intro hmax hsz
    have hcap : t.maxSizeCaped = if t.getHasMax then t.getMax else U32MAX := by
      unfold TableInstance.maxSizeCaped
      simp only [TableInstance.getHasMax, TableInstance.getMax] at *
      have h32 : U32MOD = U32MAX + 1 := by norm_num [U32MOD, U32MAX]
      cases hb : t.HasMaxSize <;> simp [hb]
      omega
    have hsz2 : t.Refs.length ≤ t.maxSizeCaped := by
      rw [hcap]
      exact hsz
    rw [growTable_fst, capSub_eq t hsz2, decide_eq_true_eq, ← hcap]
    simp only [TableInstance.getSize]
    omega
  · rw [growTable_fst, decide_eq_true_eq]
    exact Nat.zero_le _

theorem C2_grow_success_iff_witness :
    ((mkTable RefType.funcRef ⟨true, 2, 4⟩).growTable 2 UnknownRef).1 = true ∧
    ¬ (((mkTable RefType.funcRef ⟨true, 2, 4⟩).growTable 3 UnknownRef).1 = true) ∧
    (tInvalid.growTable 0 UnknownRef).1 = true := by
  refine ⟨?_, ?_, (C2_grow_success_iff tInvalid 0 UnknownRef).2⟩
  · exact ((C2_grow_success_iff (mkTable RefType.funcRef ⟨true, 2, 4⟩) 2 UnknownRef).1
      (by norm_num [mkTable, TableInstance.getMax, U32MOD])
      (by norm_num [mkTable, TableInstance.getMax, TableInstance.getHasMax,
        TableInstance.getSize])).mpr (by decide)
  · intro hgrow
    have h := ((C2_grow_success_iff (mkTable RefType.funcRef ⟨true, 2, 4⟩) 3 UnknownRef).1
      (by norm_num [mkTable, TableInstance.getMax, U32MOD])
      (by norm_num [mkTable, TableInstance.getMax, TableInstance.getHasMax,
        TableInstance.getSize])).mp hgrow
    revert h
    decide

/-- C3: `grow` postcondition: on success the new storage is exactly the
old storage with `count` copies of the fill value appended (so the new
size is the old size plus `count`, the first old-size slots are
unchanged, and every new tail slot equals the fill value); on failure the
table is completely unchanged; the one-argument overload fills with the
null reference. -/
theorem C3_grow_postcondition (t : TableInstance) (count : Nat)
    (val : RefVariant) :
    ((t.growTable count val).1 = true →
      (t.growTable count val).2.Refs = t.Refs ++ List.replicate count val ∧
      (t.growTable count val).2.getSize = t.getSize + count) ∧
    ((t.growTable count val).1 = false → (t.growTable count val).2 = t) ∧
    t.growTableNoVal count = t.growTable count UnknownRef := by
  refine ⟨?_, growTable_snd_failure t count val, rfl⟩
  intro h
  rw [growTable_snd_success t count val h]
  constructor
  · rfl
  · simp [TableInstance.getSize, List.length_append]

theorem C3_grow_postcondition_witness :
    ((tInvalid.growTable 3 (RefVariant.funcRef 5)).2.Refs =
      tInvalid.Refs ++ List.replicate 3 (RefVariant.funcRef 5)) ∧
    ((mkTable RefType.funcRef ⟨true, 2, 4⟩).growTable 9 UnknownRef).2 =
      mkTable RefType.funcRef ⟨true, 2, 4⟩ :=
  ⟨((C3_grow_postcondition tInvalid 3 (RefVariant.funcRef 5)).1 (by decide)).1,
   (C3_grow_postcondition (mkTable RefType.funcRef ⟨true, 2, 4⟩) 9 UnknownRef).2.1
     (by decide)⟩

/-- A size-2 destination table for the wrapped source-check input. -/
def tWrap : TableInstance := mkTable RefType.funcRef ⟨false, 2, 0⟩

/-- C5: the source-range check of `setRefs` computes `Start + Length` in
32-bit arithmetic and wraps: with a source slice of length 1, a valid
destination range, `sourceStart = 2^32 - 1` and `length = 2`, the
mathematical sum `2^32 + 1` exceeds the source length, yet the operation
does not fail — the wrapped sum is `1 ≤ 1`, the check passes, and the
copy reads past the end of the slice (undefined behaviour in the C++,
modelled as null references). -/
theorem C5_source_check_wraps :
    (U32MOD - 1) + 2 > ([RefVariant.funcRef 7] : List RefVariant).length ∧
    tWrap.setRefs [RefVariant.funcRef 7] 0 (U32MOD - 1) 2 =
      Except.ok { tWrap with Refs := [UnknownRef, UnknownRef] } := by
  constructor
  · norm_num [U32MOD]
  · have hchk : tWrap.checkAccessBound 0 2 = true := by decide
    have hsrc : ¬ (((U32MOD - 1) + 2) % U32MOD >
        ([RefVariant.funcRef 7] : List RefVariant).length) := by
      norm_num [U32MOD]
    have hwin : (List.range 2).map
        (fun j => ([RefVariant.funcRef 7] : List RefVariant).getD
          ((U32MOD - 1) + j) UnknownRef) = [UnknownRef, UnknownRef] := by
      have h0 : ([RefVariant.funcRef 7] : List RefVariant)[(U32MOD - 1)]?
          = none :=
        List.getElem?_eq_none (by norm_num [U32MOD])
      have h1 : ([RefVariant.funcRef 7] : List RefVariant)[(U32MOD - 1 + 1)]?
          = none :=
        List.getElem?_eq_none (by norm_num [U32MOD])
      simp [List.range_succ, h0, h1]
    unfold TableInstance.setRefs
    rw [if_pos hchk, if_neg hsrc]
    simp only [hwin]
    rfl

/-- C1: for every table and 32-bit pair `(offset, length)`, the ranged
accessors `getRefs` and `fillRefs`, and the destination check of
`setRefs` (the `checkAccessBound` predicate), fail with OutOfBounds iff
the non-wrapping sum `offset + length` exceeds `size()`, and every such
failure reports the boundary index `max(size(), 1) - 1`. -/
theorem C1_ranged_bounds (t : TableInstance) (v : RefVariant)
    (slice : List RefVariant) (off len start : Nat)
    (_hoff : off < U32MOD) (_hlen : len < U32MOD) :
    (t.checkAccessBound off len = false ↔ off + len > t.getSize) ∧
    ((∃ e, t.getRefs off len = Except.error e) ↔ off + len > t.getSize) ∧
    ((∃ e, t.fillRefs v off len = Except.error e) ↔ off + len > t.getSize) ∧
    (off + len > t.getSize →
      t.getRefs off len = Except.error ⟨off, len, max t.getSize 1 - 1⟩ ∧
      t.fillRefs v off len = Except.error ⟨off, len, max t.getSize 1 - 1⟩ ∧
      t.setRefs slice off start len =
        Except.error ⟨off, len, max t.getSize 1 - 1⟩) := by
  by_cases h : off + len ≤ t.Refs.length
  · have hc : t.checkAccessBound off len = true := by
      simpa [TableInstance.checkAccessBound] using h
    have hng : ¬ (off + len > t.getSize) := by
      simp only [TableInstance.getSize]
      omega
    refine ⟨⟨?_, fun hgt => absurd hgt hng⟩,
      ⟨?_, fun hgt => absurd hgt hng⟩,
      ⟨?_, fun hgt => absurd hgt hng⟩,
      fun hgt => absurd hgt hng⟩
    · intro hfalse
      rw [hc] at hfalse
      exact absurd hfalse (by simp)
    · rintro ⟨e, he⟩
      unfold TableInstance.getRefs at he
      rw [if_pos hc] at he
      exact Except.noConfusion he
    · rintro ⟨e, he⟩
      unfold TableInstance.fillRefs at he
      rw [if_pos hc] at he
      exact Except.noConfusion he
  · have hc : ¬ (t.checkAccessBound off len = true) := by
      simpa [TableInstance.checkAccessBound] using h
    have hcf : t.checkAccessBound off len = false := by
      simpa using hc
    have hg : off + len > t.getSize := by
      simp only [TableInstance.getSize]
      omega
    have hget : t.getRefs off len =
        Except.error ⟨off, len, max t.getSize 1 - 1⟩ := by
      unfold TableInstance.getRefs
      rw [if_neg hc]
      rfl
    have hfill : t.fillRefs v off len =
        Except.error ⟨off, len, max t.getSize 1 - 1⟩ := by
      unfold TableInstance.fillRefs
      rw [if_neg hc]
      rfl
    have hset : t.setRefs slice off start len =
        Except.error ⟨off, len, max t.getSize 1 - 1⟩ := by
      unfold TableInstance.setRefs
      rw [if_neg hc]
      rfl
    exact ⟨⟨fun _ => hg, fun _ => hcf⟩, ⟨fun _ => hg, fun _ => ⟨_, hget⟩⟩,
      ⟨fun _ => hg, fun _ => ⟨_, hfill⟩⟩, fun _ => ⟨hget, hfill, hset⟩⟩

theorem C1_ranged_bounds_witness :
    tWrap.getRefs 1 5 = Except.error ⟨1, 5, max tWrap.getSize 1 - 1⟩ :=
  ((C1_ranged_bounds tWrap UnknownRef [] 1 5 0 (by norm_num [U32MOD])
    (by norm_num [U32MOD])).2.2.2 (by decide)).1

/-! ### Splice lemmas: the shape `take off ++ mid ++ drop (off + len)`
shared by the successful `setRefs` and `fillRefs` updates. -/

theorem splice_length (l mid : List RefVariant) (off len : Nat)
    (hmid : mid.length = len) (hb : off + len ≤ l.length) :
    (l.take off ++ mid ++ l.drop (off + len)).length = l.length := by
  simp only [List.length_append, List.length_take, List.length_drop, hmid]
  omega

theorem splice_getElem_left (l mid : List RefVariant) (off len : Nat)
    (hoff : off ≤ l.length) (j : Nat) (hj : j < off) :
    (l.take off ++ mid ++ l.drop (off + len))[j]? = l[j]? := by
  have htake : (l.take off).length = off := by
    simp only [List.length_take]
    omega
  rw [List.getElem?_append_left (by simp only [List.length_append, htake]; omega),
    List.getElem?_append_left (by omega : j < (l.take off).length)]
  exact List.getElem?_take_of_lt hj

theorem splice_getElem_mid (l mid : List RefVariant) (off len : Nat)
    (hmid : mid.length = len) (hb : off + len ≤ l.length)
    (i : Nat) (hi : i < len) :
    (l.take off ++ mid ++ l.drop (off + len))[off + i]? = mid[i]? := by
  have htake : (l.take off).length = off := by
    simp only [List.length_take]
    omega
  rw [List.getElem?_append_left
      (by simp only [List.length_append, htake, hmid]; omega),
    List.getElem?_append_right (by omega : (l.take off).length ≤ off + i),
    htake, Nat.add_sub_cancel_left]

theorem splice_getElem_right (l mid : List RefVariant) (off len : Nat)
    (hmid : mid.length = len) (hb : off + len ≤ l.length)
    (j : Nat) (hj : off + len ≤ j) :
    (l.take off ++ mid ++ l.drop (off + len))[j]? = l[j]? := by
  have htake : (l.take off).length = off := by
    simp only [List.length_take]
    omega
  rw [List.getElem?_append_right
      (by simp only [List.length_append, htake, hmid]; omega),
    List.getElem?_drop]
  congr 1
  simp only [List.length_append, htake, hmid]
  omega

/-- C7: when both bounds checks pass (the mathematical in-range
conditions hold), `setRefs` succeeds and copies exactly the `length`
source values `slice[start .. start+length)` into slots
`[offset, offset+length)`, leaves every other slot unchanged, and does
not change `size()`. -/
theorem C7_write_copies (t : TableInstance) (slice : List RefVariant)
    (off start len : Nat) (hdst : off + len ≤ t.getSize)
    (hsrc : start + len ≤ slice.length) :
    ∃ t2, t.setRefs slice off start len = Except.ok t2 ∧
      t2.getSize = t.getSize ∧
      (∀ i, i < len → t2.Refs[off + i]? = slice[start + i]?) ∧
      (∀ j, j < off → t2.Refs[j]? = t.Refs[j]?) ∧
      (∀ j, off + len ≤ j → t2.Refs[j]? = t.Refs[j]?) := by
  have hdst2 : off + len ≤ t.Refs.length := hdst
  have hchk : t.checkAccessBound off len = true := by
    simpa [TableInstance.checkAccessBound] using hdst2
  have hwrap : ¬ ((start + len) % U32MOD > slice.length) := by
    have hmod : (start + len) % U32MOD ≤ start + len := Nat.mod_le _ _
    omega
  have hwinlen : ((List.range len).map
      (fun j => slice.getD (start + j) UnknownRef)).length = len := by
    simp
  refine ⟨{ t with Refs := t.Refs.take off ++ (List.range len).map (fun j => slice.getD (start + j) UnknownRef) ++ t.Refs.drop (off + len) }, ?_, ?_, ?_, ?_, ?_⟩
  · unfold TableInstance.setRefs
    rw [if_pos hchk, if_neg hwrap]
  · exact splice_length _ _ _ _ hwinlen hdst2
  · intro i hi
    rw [splice_getElem_mid _ _ _ _ hwinlen hdst2 i hi]
    rw [List.getElem?_map, List.getElem?_range hi]
    have hsi : start + i < slice.length := by omega
    rw [List.getElem?_eq_getElem hsi]
    simp [List.getD_eq_getElem?_getD, List.getElem?_eq_getElem hsi]
  · intro j hj
    exact splice_getElem_left _ _ _ _ (by omega) j hj
  · intro j hj
    exact splice_getElem_right _ _ _ _ hwinlen hdst2 j hj

/-- Scenario D destination table: four distinct pre-existing slots. -/
def tD : TableInstance :=
  { refTy := RefType.funcRef
    HasMaxSize := false
    MaxSize := 0
    Refs := [RefVariant.funcRef 100, RefVariant.funcRef 101,
             RefVariant.funcRef 102, RefVariant.funcRef 103] }

theorem C7_write_copies_witness :
    ∃ t2, tD.setRefs [RefVariant.funcRef 1, RefVariant.funcRef 2,
        RefVariant.funcRef 3] 1 1 2 = Except.ok t2 ∧
      t2.getSize = tD.getSize ∧
      (∀ i, i < 2 → t2.Refs[1 + i]? = [RefVariant.funcRef 1,
        RefVariant.funcRef 2, RefVariant.funcRef 3][1 + i]?) ∧
      (∀ j, j < 1 → t2.Refs[j]? = tD.Refs[j]?) ∧
      (∀ j, 1 + 2 ≤ j → t2.Refs[j]? = tD.Refs[j]?) :=
  C7_write_copies tD [RefVariant.funcRef 1, RefVariant.funcRef 2,
    RefVariant.funcRef 3] 1 1 2 (by decide) (by decide)

/-- C9: fill/read round-trip: for every in-bounds range
(`offset + length ≤ size()`), `fillRefs(v, offset, length)` succeeds,
the subsequent `readSlice(offset, length)` succeeds returning `length`
copies of `v`, the size is unchanged, and slots outside
`[offset, offset+length)` are unchanged. -/
theorem C9_fill_read_roundtrip (t : TableInstance) (v : RefVariant)
    (off len : Nat) (h : off + len ≤ t.getSize) :
    ∃ t2, t.fillRefs v off len = Except.ok t2 ∧
      t2.getSize = t.getSize ∧
      t2.getRefs off len = Except.ok (List.replicate len v) ∧
      (∀ j, j < off → t2.Refs[j]? = t.Refs[j]?) ∧
      (∀ j, off + len ≤ j → t2.Refs[j]? = t.Refs[j]?) := by
  have h2 : off + len ≤ t.Refs.length := h
  have hchk : t.checkAccessBound off len = true := by
    simpa [TableInstance.checkAccessBound] using h2
  have hreplen : (List.replicate len v).length = len := by simp
  have hlen2 : (t.Refs.take off ++ List.replicate len v ++ t.Refs.drop (off + len)).length = t.Refs.length :=
    splice_length _ _ _ _ hreplen h2
  refine ⟨{ t with Refs := t.Refs.take off ++ List.replicate len v ++ t.Refs.drop (off + len) }, ?_, hlen2, ?_, ?_, ?_⟩
  · unfold TableInstance.fillRefs
    rw [if_pos hchk]
  · have hchk2 : TableInstance.checkAccessBound { t with Refs := t.Refs.take off ++ List.replicate len v ++ t.Refs.drop (off + len) } off len = true := by
      simp only [TableInstance.checkAccessBound, hlen2]
      simpa using h2
    unfold TableInstance.getRefs
    rw [if_pos hchk2]
    congr 1
    have htake : (t.Refs.take off).length = off := by
      simp only [List.length_take]
      omega
    rw [List.append_assoc, List.drop_left' htake,
      List.take_left' hreplen]
  · intro j hj
    exact splice_getElem_left _ _ _ _ (by omega) j hj
  · intro j hj
    exact splice_getElem_right _ _ _ _ hreplen h2 j hj

theorem C9_fill_read_roundtrip_witness :
    ∃ t2, (mkTable RefType.funcRef ⟨false, 4, 0⟩).fillRefs
        (RefVariant.funcRef 9) 0 2 = Except.ok t2 ∧
      t2.getSize = (mkTable RefType.funcRef ⟨false, 4, 0⟩).getSize ∧
      t2.getRefs 0 2 = Except.ok (List.replicate 2 (RefVariant.funcRef 9)) ∧
      (∀ j, j < 0 → t2.Refs[j]? = (mkTable RefType.funcRef ⟨false, 4, 0⟩).Refs[j]?) ∧
      (∀ j, 0 + 2 ≤ j → t2.Refs[j]? = (mkTable RefType.funcRef ⟨false, 4, 0⟩).Refs[j]?) :=
  C9_fill_read_roundtrip (mkTable RefType.funcRef ⟨false, 4, 0⟩)
    (RefVariant.funcRef 9) 0 2 (by decide)

/-- C8: single-slot access behaves as a ranged operation of length 1:
`get(index)`/`set(index, value)` succeed iff `index + 1 ≤ size()`
(equivalently the length-1 bounds check passes); on failure both report
`(index, 1, boundaryIndex())`; on success `get` returns the stored slot
and `set` overwrites exactly slot `index`, leaving all other slots and
the size unchanged. -/
theorem C8_single_slot (t : TableInstance) (idx : Nat) (val : RefVariant) :
    (t.checkAccessBound idx 1 = true ↔ idx + 1 ≤ t.getSize) ∧
    ((∃ v, t.getRefAddr idx = Except.ok v) ↔ idx + 1 ≤ t.getSize) ∧
    ((∃ t2, t.setRefAddr idx val = Except.ok t2) ↔ idx + 1 ≤ t.getSize) ∧
    (t.getSize ≤ idx →
      t.getRefAddr idx = Except.error ⟨idx, 1, max t.getSize 1 - 1⟩ ∧
      t.setRefAddr idx val = Except.error ⟨idx, 1, max t.getSize 1 - 1⟩) ∧
    (idx + 1 ≤ t.getSize →
      t.getRefAddr idx = Except.ok (t.Refs.getD idx UnknownRef) ∧
      ∃ t2, t.setRefAddr idx val = Except.ok t2 ∧
        t2.getSize = t.getSize ∧ t2.Refs[idx]? = some val ∧
        ∀ j, j ≠ idx → t2.Refs[j]? = t.Refs[j]?) := by
  have hsz : t.getSize = t.Refs.length := rfl
  by_cases h : idx < t.Refs.length
  · have hge : ¬ (idx ≥ t.Refs.length) := by omega
    have hget : t.getRefAddr idx = Except.ok (t.Refs.getD idx UnknownRef) := by
      unfold TableInstance.getRefAddr
      rw [if_neg hge]
    have hset : t.setRefAddr idx val =
        Except.ok { t with Refs := t.Refs.set idx val } := by
      unfold TableInstance.setRefAddr
      rw [if_neg hge]
    refine ⟨?_, ?_, ?_, fun hle => absurd hle (by omega), fun _ => ⟨hget, ?_⟩⟩
    · simp only [TableInstance.checkAccessBound, decide_eq_true_eq, hsz]
    · simp only [hget, hsz]
      exact ⟨fun _ => by omega, fun _ => ⟨_, rfl⟩⟩
    · simp only [hset, hsz]
      exact ⟨fun _ => by omega, fun _ => ⟨_, rfl⟩⟩
    · refine ⟨_, hset, by simp [TableInstance.getSize], ?_, ?_⟩
      · exact List.getElem?_set_self h
      · intro j hj
        exact List.getElem?_set_ne (fun hh => hj hh.symm)
  · have hge : idx ≥ t.Refs.length := by omega
    have hget : t.getRefAddr idx =
        Except.error ⟨idx, 1, max t.getSize 1 - 1⟩ := by
      unfold TableInstance.getRefAddr
      rw [if_pos hge]
      rfl
    have hset : t.setRefAddr idx val =
        Except.error ⟨idx, 1, max t.getSize 1 - 1⟩ := by
      unfold TableInstance.setRefAddr
      rw [if_pos hge]
      rfl
    refine ⟨?_, ?_, ?_, fun _ => ⟨hget, hset⟩, fun hlt => absurd hlt (by omega)⟩
    · simp only [TableInstance.checkAccessBound, decide_eq_true_eq, hsz]
    · simp only [hget, hsz]
      constructor
      · rintro ⟨v2, hv2⟩
        exact Except.noConfusion hv2
      · intro hlt
        omega
    · simp only [hset, hsz]
      constructor
      · rintro ⟨t2, ht2⟩
        exact Except.noConfusion ht2
      · intro hlt
        omega

theorem C8_single_slot_witness :
    (mkTable RefType.funcRef ⟨false, 4, 0⟩).getRefAddr 10 =
      Except.error ⟨10, 1, max (mkTable RefType.funcRef ⟨false, 4, 0⟩).getSize 1 - 1⟩ ∧
    (mkTable RefType.funcRef ⟨false, 4, 0⟩).getRefAddr 3 =
      Except.ok ((mkTable RefType.funcRef ⟨false, 4, 0⟩).Refs.getD 3 UnknownRef) :=
  ⟨((C8_single_slot (mkTable RefType.funcRef ⟨false, 4, 0⟩) 10 UnknownRef).2.2.2.1
      (by decide)).1,
   ((C8_single_slot (mkTable RefType.funcRef ⟨false, 4, 0⟩) 3 UnknownRef).2.2.2.2
      (by decide)).1⟩

/-! ### Preservation lemmas for operation sequences -/

theorem setRefs_ok_inv (t : TableInstance) (slice : List RefVariant)
    (off start len : Nat) (t2 : TableInstance)
    (h : t.setRefs slice off start len = Except.ok t2) :
    t2.Refs.length = t.Refs.length ∧ t2.HasMaxSize = t.HasMaxSize ∧
      t2.MaxSize = t.MaxSize := by
  unfold TableInstance.setRefs at h
  by_cases hchk : t.checkAccessBound off len = true
  · rw [if_pos hchk] at h
    by_cases hsrc : (start + len) % U32MOD > slice.length
    · rw [if_pos hsrc] at h
      exact Except.noConfusion h
    · rw [if_neg hsrc] at h
      have hb : off + len ≤ t.Refs.length := by
        simpa [TableInstance.checkAccessBound] using hchk
      have hwin : ((List.range len).map
          (fun j => slice.getD (start + j) UnknownRef)).length = len := by
        simp
      simp only [Except.ok.injEq] at h
      subst h
      exact ⟨splice_length _ _ _ _ hwin hb, rfl, rfl⟩
  · rw [if_neg hchk] at h
    exact Except.noConfusion h

theorem fillRefs_ok_inv (t : TableInstance) (val : RefVariant)
    (off len : Nat) (t2 : TableInstance)
    (h : t.fillRefs val off len = Except.ok t2) :
    t2.Refs.length = t.Refs.length ∧ t2.HasMaxSize = t.HasMaxSize ∧
      t2.MaxSize = t.MaxSize := by
  unfold TableInstance.fillRefs at h
  by_cases hchk : t.checkAccessBound off len = true
  · rw [if_pos hchk] at h
    have hb : off + len ≤ t.Refs.length := by
      simpa [TableInstance.checkAccessBound] using hchk
    simp only [Except.ok.injEq] at h
    subst h
    exact ⟨splice_length _ _ _ _ (by simp) hb, rfl, rfl⟩
  · rw [if_neg hchk] at h
    exact Except.noConfusion h

theorem setRefAddr_ok_inv (t : TableInstance) (idx : Nat) (val : RefVariant)
    (t2 : TableInstance) (h : t.setRefAddr idx val = Except.ok t2) :
    t2.Refs.length = t.Refs.length ∧ t2.HasMaxSize = t.HasMaxSize ∧
      t2.MaxSize = t.MaxSize := by
  unfold TableInstance.setRefAddr at h
  by_cases hge : idx ≥ t.Refs.length
  · rw [if_pos hge] at h
    exact Except.noConfusion h
  · rw [if_neg hge] at h
    simp only [Except.ok.injEq] at h
    subst h
    exact ⟨List.length_set .., rfl, rfl⟩

theorem growTable_snd_inv (t : TableInstance) (count : Nat)
    (val : RefVariant) :
    t.Refs.length ≤ (t.growTable count val).2.Refs.length ∧
      (t.growTable count val).2.HasMaxSize = t.HasMaxSize ∧
      (t.growTable count val).2.MaxSize = t.MaxSize := by
  cases hb : (t.growTable count val).1 with
  | false =>
    rw [growTable_snd_failure t count val hb]
    exact ⟨Nat.le_refl _, rfl, rfl⟩
  | true =>
    rw [growTable_snd_success t count val hb]
    simp [List.length_append]

/-- `applyOp` never shrinks the table and never changes the limit
fields. -/
theorem applyOp_inv (t : TableInstance) (op : TableOp) :
    t.Refs.length ≤ (applyOp t op).Refs.length ∧
      (applyOp t op).HasMaxSize = t.HasMaxSize ∧
      (applyOp t op).MaxSize = t.MaxSize := by
  cases op with
  | grow c v => exact growTable_snd_inv t c v
  | setAddr i v =>
    simp only [applyOp]
    cases heq : t.setRefAddr i v with
    | ok t2 =>
      obtain ⟨h1, h2, h3⟩ := setRefAddr_ok_inv t i v t2 heq
      exact ⟨Nat.le_of_eq h1.symm, h2, h3⟩
    | error e => exact ⟨Nat.le_refl _, rfl, rfl⟩
  | fill v o l =>
    simp only [applyOp]
    cases heq : t.fillRefs v o l with
    | ok t2 =>
      obtain ⟨h1, h2, h3⟩ := fillRefs_ok_inv t v o l t2 heq
      exact ⟨Nat.le_of_eq h1.symm, h2, h3⟩
    | error e => exact ⟨Nat.le_refl _, rfl, rfl⟩
  | write s o st l =>
    simp only [applyOp]
    cases heq : t.setRefs s o st l with
    | ok t2 =>
      obtain ⟨h1, h2, h3⟩ := setRefs_ok_inv t s o st l t2 heq
      exact ⟨Nat.le_of_eq h1.symm, h2, h3⟩
    | error e => exact ⟨Nat.le_refl _, rfl, rfl⟩
  | read o l => exact ⟨Nat.le_refl _, rfl, rfl⟩
  | readAddr i => exact ⟨Nat.le_refl _, rfl, rfl⟩

/-- `applyOp` preserves the invariant `size ≤ MaxSizeCaped`. -/
theorem applyOp_cap (t : TableInstance) (op : TableOp)
    (h : t.Refs.length ≤ t.maxSizeCaped) :
    (applyOp t op).Refs.length ≤ (applyOp t op).maxSizeCaped := by
  obtain ⟨hlen, hhm, hmx⟩ := applyOp_inv t op
  have hcap : (applyOp t op).maxSizeCaped = t.maxSizeCaped := by
    unfold TableInstance.maxSizeCaped
    rw [hhm, hmx]
  have hgoal : (applyOp t op).Refs.length ≤ t.maxSizeCaped := by
    cases op with
    | grow c v =>
      cases hb : (t.growTable c v).1 with
      | false =>
        have hfail := growTable_snd_failure t c v hb
        simp only [applyOp]
        rw [hfail]
        exact h
      | true =>
        have hsnd := growTable_snd_success t c v hb
        have hcnt : c ≤ t.maxSizeCaped - t.Refs.length := by
          rw [growTable_fst, capSub_eq t h] at hb
          exact of_decide_eq_true hb
        simp only [applyOp]
        rw [hsnd]
        simp only [List.length_append, List.length_replicate]
        omega
    | setAddr i v =>
      simp only [applyOp]
      cases heq : t.setRefAddr i v with
      | ok t2 =>
        have h1 := (setRefAddr_ok_inv t i v t2 heq).1
        show t2.Refs.length ≤ t.maxSizeCaped
        omega
      | error e => exact h
    | fill v o l =>
      simp only [applyOp]
      cases heq : t.fillRefs v o l with
      | ok t2 =>
        have h1 := (fillRefs_ok_inv t v o l t2 heq).1
        show t2.Refs.length ≤ t.maxSizeCaped
        omega
      | error e => exact h
    | write s o st l =>
      simp only [applyOp]
      cases heq : t.setRefs s o st l with
      | ok t2 =>
        have h1 := (setRefs_ok_inv t s o st l t2 heq).1
        show t2.Refs.length ≤ t.maxSizeCaped
        omega
      | error e => exact h
    | read o l => exact h
    | readAddr i => exact h
  rw [hcap]
  exact hgoal

theorem runOps_size_mono (t : TableInstance) (ops : List TableOp) :
    t.Refs.length ≤ (runOps t ops).Refs.length := by
  induction ops generalizing t with
  | nil => exact Nat.le_refl _
  | cons op ops ih =>
    have h1 : runOps t (op :: ops) = runOps (applyOp t op) ops := rfl
    rw [h1]
    exact Nat.le_trans (applyOp_inv t op).1 (ih (applyOp t op))

theorem runOps_cap (t : TableInstance) (ops : List TableOp)
    (h : t.Refs.length ≤ t.maxSizeCaped) :
    (runOps t ops).Refs.length ≤ (runOps t ops).maxSizeCaped := by
  induction ops generalizing t with
  | nil => exact h
  | cons op ops ih =>
    have h1 : runOps t (op :: ops) = runOps (applyOp t op) ops := rfl
    rw [h1]
    exact ih (applyOp t op) (applyOp_cap t op h)

theorem runOps_fields (t : TableInstance) (ops : List TableOp) :
    (runOps t ops).HasMaxSize = t.HasMaxSize ∧
      (runOps t ops).MaxSize = t.MaxSize := by
  induction ops generalizing t with
  | nil => exact ⟨rfl, rfl⟩
  | cons op ops ih =>
    have h1 : runOps t (op :: ops) = runOps (applyOp t op) ops := rfl
    rw [h1]
    obtain ⟨ha, hb⟩ := ih (applyOp t op)
    obtain ⟨_, hc, hd⟩ := applyOp_inv t op
    exact ⟨ha.trans hc, hb.trans hd⟩

/-- C4: for every table constructed with valid 32-bit limits
(`hasMax → min ≤ max`) and every sequence of operations, at every
observable point the size is at least the declared `min`, the size is
monotonically non-decreasing across any further operation, and when
`hasMax` holds the size never exceeds `max`. -/
theorem C4_invariants (ref : RefType) (lim : Limit) (ops : List TableOp)
    (op : TableOp) (hmin : lim.min < U32MOD)
    (hvalid : lim.hasMax = true → lim.min ≤ lim.max) :
    lim.min ≤ (runOps (mkTable ref lim) ops).getSize ∧
    ((runOps (mkTable ref lim) ops).getHasMax = true →
      (runOps (mkTable ref lim) ops).getSize ≤
        (runOps (mkTable ref lim) ops).getMax) ∧
    (runOps (mkTable ref lim) ops).getSize ≤
      (runOps (mkTable ref lim) (ops ++ [op])).getSize := by
  have hlen0 : (mkTable ref lim).Refs.length = lim.min := by
    simp [mkTable]
  have h32 : U32MOD = U32MAX + 1 := by norm_num [U32MOD, U32MAX]
  have hcap0 : (mkTable ref lim).Refs.length ≤ (mkTable ref lim).maxSizeCaped := by
    rw [hlen0]
    unfold TableInstance.maxSizeCaped
    simp only [mkTable]
    cases hb : lim.hasMax with
    | false =>
      rw [if_neg (by simp)]
      omega
    | true =>
      have hmm := hvalid hb
      rw [if_pos rfl]
      omega
  refine ⟨?_, ?_, ?_⟩
  · have := runOps_size_mono (mkTable ref lim) ops
    rw [hlen0] at this
    exact this
  · intro hm
    have hcap := runOps_cap (mkTable ref lim) ops hcap0
    have hms : (runOps (mkTable ref lim) ops).maxSizeCaped ≤
        (runOps (mkTable ref lim) ops).MaxSize := by
      unfold TableInstance.maxSizeCaped
      rw [show (runOps (mkTable ref lim) ops).HasMaxSize = true from hm]
      simp only [if_true]
      exact Nat.min_le_left _ _
    exact Nat.le_trans hcap hms
  · have happ : runOps (mkTable ref lim) (ops ++ [op]) =
        applyOp (runOps (mkTable ref lim) ops) op := by
      unfold runOps
      rw [List.foldl_append]
      rfl
    rw [happ]
    exact (applyOp_inv (runOps (mkTable ref lim) ops) op).1

theorem C4_invariants_witness :
    2 ≤ (runOps (mkTable RefType.funcRef ⟨true, 2, 4⟩)
      [TableOp.grow 2 UnknownRef]).getSize ∧
    (runOps (mkTable RefType.funcRef ⟨true, 2, 4⟩)
      [TableOp.grow 2 UnknownRef]).getSize ≤
      (runOps (mkTable RefType.funcRef ⟨true, 2, 4⟩)
        [TableOp.grow 2 UnknownRef]).getMax ∧
    (runOps (mkTable RefType.funcRef ⟨true, 2, 4⟩)
      [TableOp.grow 2 UnknownRef]).getSize ≤
      (runOps (mkTable RefType.funcRef ⟨true, 2, 4⟩)
        ([TableOp.grow 2 UnknownRef] ++ [TableOp.grow 1 UnknownRef])).getSize :=
  have h := C4_invariants RefType.funcRef ⟨true, 2, 4⟩
    [TableOp.grow 2 UnknownRef] (TableOp.grow 1 UnknownRef)
    (by norm_num [U32MOD]) (fun _ => by norm_num)
  ⟨h.1, h.2.1 (by decide), h.2.2⟩

end WasmEdgeTable
